import Mathlib

/-!
Verification of the data-ingestion service (batch-granular scheduler).

This file is a shallow embedding of `src/services/ingestionService.js`
(the final, batch-granular `IngestionService` class), of the ingest route
(`router.post` appended to `src/tests/api.test.js`) and of the status route
(`router.get`).  Modelling conventions:

* uuidv4 generation is modelled by a fresh-`Nat` counter (`ServiceState.nextId`):
  each generated identifier is a `Nat` never used before;
* `new Date()` timestamps are modelled by an explicit `now : Nat` argument;
  a single synchronous operation observes a single value of the clock;
* the in-place mutation of the shared record objects is modelled by a
  functional update of the single record store;
* the launched-but-not-yet-completed background `processBatch` promises are
  modelled by the `inFlight` component of the state: the completion callback
  of `processBatch(batch).then(...)` is the `completeBatch` transition and can
  only fire for a pair that is in flight;
* the dispatch loop of `processQueue` is `dispatchStep` (one iteration) and
  `runLoop` (a whole run of the `while` loop, emitting an event trace in which
  the `setTimeout` rate-limit suspension is the `slept` event).
-/

namespace DataIngestion

/-- The three priority literals accepted by the service. -/
inductive Priority
  | HIGH
  | MEDIUM
  | LOW
deriving DecidableEq

/-- The `priorityOrder` map of `sortQueue`: `{ HIGH: 0, MEDIUM: 1, LOW: 2 }`. -/
def priorityOrder : Priority → Nat
  | .HIGH => 0
  | .MEDIUM => 1
  | .LOW => 2

/-- The three status literals used for both batches and ingestions:
`'yet_to_start'`, `'triggered'`, `'completed'`. -/
inductive Status
  | yet_to_start
  | triggered
  | completed
deriving DecidableEq

/-- Rank of a status along the lifecycle `yet_to_start → triggered → completed`. -/
def statusRank : Status → Nat
  | .yet_to_start => 0
  | .triggered => 1
  | .completed => 2

/-- A batch record: `{ batchId, ids, status }`. -/
structure Batch where
  batchId : Nat
  ids : List Int
  status : Status
deriving DecidableEq

/-- An ingestion record: `{ id, priority, batches, createdAt, status }`. -/
structure Ingestion where
  id : Nat
  priority : Priority
  batches : List Batch
  createdAt : Nat
  status : Status
deriving DecidableEq

/-- A queue item pushed by `createIngestion`:
`{ ingestionId, batchId, priority, createdAt }` (the `batch` field of the
source item is an alias of the stored batch object and is looked up from the
record store by `batchId` here). -/
structure QueueEntry where
  ingestionId : Nat
  batchId : Nat
  priority : Priority
  createdAt : Nat
deriving DecidableEq

/-- The mutable state of the `IngestionService` singleton: the `ingestions`
map (association list keyed by ingestion id), the `batchQueue`, the set of
in-flight background `processBatch` promises, and the uuid-freshness
counter. -/
structure ServiceState where
  ingestions : List (Nat × Ingestion)
  batchQueue : List QueueEntry
  inFlight : List (Nat × Nat)
  nextId : Nat
deriving DecidableEq

/-- The state of a freshly constructed service. -/
def initialState : ServiceState := ⟨[], [], [], 0⟩

/-- `BATCH_SIZE` of the source. -/
def BATCH_SIZE : Nat := 3

/-- `RATE_LIMIT_MS` of the source. -/
def RATE_LIMIT_MS : Nat := 5000

/-- `createBatches(ids)`: the loop `for (let i = 0; i < ids.length; i += 3)`
taking `ids.slice(i, i + 3)` per batch; each batch gets a fresh uuid
(modelled by consecutive counter values starting at `fid`) and status
`'yet_to_start'`. -/
def createBatches : List Int → Nat → List Batch
  | [], _ => []
  | [x], fid => [{ batchId := fid, ids := [x], status := .yet_to_start }]
  | [x, y], fid => [{ batchId := fid, ids := [x, y], status := .yet_to_start }]
  | x :: y :: z :: rest, fid =>
    { batchId := fid, ids := [x, y, z], status := .yet_to_start }
      :: createBatches rest (fid + 1)

lemma createBatches_eq_nil_iff (l : List Int) (fid : Nat) :
    createBatches l fid = [] ↔ l = [] := by
  rcases l with _ | ⟨x, _ | ⟨y, _ | ⟨z, rest⟩⟩⟩ <;> simp [createBatches]

lemma createBatches_join (l : List Int) (fid : Nat) :
    ((createBatches l fid).map (fun b => b.ids)).flatten = l := by
  induction l, fid using createBatches.induct with
  | case1 fid => simp [createBatches]
  | case2 x fid => simp [createBatches]
  | case3 x y fid => simp [createBatches]
  | case4 x y z rest fid ih =>
    simp only [createBatches, List.map_cons, List.flatten_cons]
    rw [ih]
    rfl

lemma createBatches_length (l : List Int) (fid : Nat) :
    (createBatches l fid).length = (l.length + 2) / 3 := by
  induction l, fid using createBatches.induct with
  | case1 fid => simp [createBatches]
  | case2 x fid => simp [createBatches]
  | case3 x y fid => simp [createBatches]
  | case4 x y z rest fid ih =>
    simp only [createBatches, List.length_cons]
    rw [ih]
    omega

lemma createBatches_status (l : List Int) (fid : Nat) :
    ∀ b ∈ createBatches l fid, b.status = .yet_to_start := by
  induction l, fid using createBatches.induct with
  | case1 fid => simp [createBatches]
  | case2 x fid => simp [createBatches]
  | case3 x y fid => simp [createBatches]
  | case4 x y z rest fid ih =>
    intro b hb
    rcases List.mem_cons.mp hb with h | h
    · rw [h]
    · exact ih b h

lemma createBatches_dropLast_len (l : List Int) (fid : Nat) :
    ∀ b ∈ (createBatches l fid).dropLast, b.ids.length = 3 := by
  induction l, fid using createBatches.induct with
  | case1 fid => simp [createBatches]
  | case2 x fid => simp [createBatches]
  | case3 x y fid => simp [createBatches]
  | case4 x y z rest fid ih =>
    intro b hb
    rw [createBatches] at hb
    rcases hrest : createBatches rest (fid + 1) with _ | ⟨c, t⟩
    · rw [hrest] at hb
      simp at hb
    · rw [hrest] at hb
      rw [List.dropLast_cons₂] at hb
      rcases List.mem_cons.mp hb with h | h
      · rw [h]
        rfl
      · rw [← hrest] at h
        exact ih b h

lemma createBatches_getLast_len (l : List Int) (fid : Nat) (h : l ≠ []) :
    ((createBatches l fid).getLast?).map (fun b => b.ids.length)
      = some (if l.length % 3 = 0 then 3 else l.length % 3) := by
  induction l, fid using createBatches.induct with
  | case1 fid => exact absurd rfl h
  | case2 x fid => simp [createBatches]
  | case3 x y fid => simp [createBatches]
  | case4 x y z rest fid ih =>
    rw [createBatches]
    rcases hrest : createBatches rest (fid + 1) with _ | ⟨c, t⟩
    · have hx : rest = [] := (createBatches_eq_nil_iff _ _).mp hrest
      subst hx
      simp [createBatches]
    · have hx : rest ≠ [] := by
        intro hnil
        rw [hnil] at hrest
        simp [createBatches] at hrest
      rw [List.getLast?_cons_cons, ← hrest]
      rw [ih hx]
      have hmod : rest.length % 3 = (x :: y :: z :: rest).length % 3 := by
        simp only [List.length_cons]
        omega
      rw [hmod]

lemma createBatches_batchIds (l : List Int) (fid : Nat) :
    (createBatches l fid).map (fun b => b.batchId)
      = List.range' fid ((createBatches l fid).length) := by
  induction l, fid using createBatches.induct with
  | case1 fid => simp [createBatches]
  | case2 x fid => simp [createBatches]
  | case3 x y fid => simp [createBatches]
  | case4 x y z rest fid ih =>
    simp only [createBatches, List.map_cons, List.length_cons, List.range'_succ]
    rw [ih]

/-- The comparator of `sortQueue` as a total preorder: entry `a` may come
before `b` when its priority rank is smaller, or the ranks tie and its
`createdAt` is not larger (the comparator returns `rank a - rank b` when the
ranks differ, else `createdAt a - createdAt b`). -/
def keyLe (a b : QueueEntry) : Prop :=
  priorityOrder a.priority < priorityOrder b.priority ∨
    (priorityOrder a.priority = priorityOrder b.priority ∧ a.createdAt ≤ b.createdAt)

instance : DecidableRel keyLe := fun a b => by
  unfold keyLe
  exact inferInstance

instance : IsTotal QueueEntry keyLe := ⟨fun a b => by unfold keyLe; omega⟩

instance : IsTrans QueueEntry keyLe := ⟨fun a b c => by unfold keyLe; omega⟩

/-- `sortQueue()`: `this.batchQueue.sort(comparator)`.  The engine's
`Array.prototype.sort` is stable, so it is modelled by a stable insertion
sort with respect to the comparator's order. -/
def sortQueue (q : List QueueEntry) : List QueueEntry := q.insertionSort keyLe

lemma sortQueue_perm (q : List QueueEntry) : List.Perm (sortQueue q) q :=
  List.perm_insertionSort keyLe q

lemma sortQueue_length (q : List QueueEntry) : (sortQueue q).length = q.length :=
  List.length_insertionSort keyLe q

lemma sortQueue_sorted (q : List QueueEntry) : List.Sorted keyLe (sortQueue q) :=
  List.sorted_insertionSort keyLe q

lemma mem_sortQueue {e : QueueEntry} {q : List QueueEntry} :
    e ∈ sortQueue q ↔ e ∈ q :=
  (sortQueue_perm q).mem_iff

/-- The sort key of a queue entry: the pair the comparator compares. -/
def qkey (e : QueueEntry) : Nat × Nat := (priorityOrder e.priority, e.createdAt)

lemma keyLe_of_qkey_eq {a b : QueueEntry} (h : qkey a = qkey b) : keyLe a b := by
  unfold qkey at h
  unfold keyLe
  have h1 : priorityOrder a.priority = priorityOrder b.priority := congrArg Prod.fst h
  have h2 : a.createdAt = b.createdAt := congrArg Prod.snd h
  omega

/-- Stability of `orderedInsert` seen through the elements of one sort key:
the inserted element lands in front of the elements sharing its key. -/
lemma filter_qkey_orderedInsert (k : Nat × Nat) (x : QueueEntry) (l : List QueueEntry) :
    (List.orderedInsert keyLe x l).filter (fun e => decide (qkey e = k)) =
      if qkey x = k then x :: l.filter (fun e => decide (qkey e = k))
      else l.filter (fun e => decide (qkey e = k)) := by
  induction l with
  | nil =>
    simp only [List.orderedInsert_nil, List.filter]
    split <;> simp_all
  | cons h t ih =>
    by_cases hle : keyLe x h
    · simp only [List.orderedInsert, if_pos hle]
      by_cases hk : qkey x = k
      · simp [List.filter_cons, hk]
      · simp [List.filter_cons, hk]
    · have hne : qkey h ≠ qkey x := fun hq => hle (keyLe_of_qkey_eq hq.symm)
      simp only [List.orderedInsert, if_neg hle]
      by_cases hk : qkey x = k
      · have hhk : qkey h ≠ k := fun hq => hne (hq.trans hk.symm)
        simp [List.filter_cons, hhk, ih, hk]
      · by_cases hhk : qkey h = k
        · simp [List.filter_cons, hhk, ih, hk]
        · simp [List.filter_cons, hhk, ih, hk]

/-- Stability of `sortQueue` seen through the elements of one sort key: the
subsequence of entries with a given key is unchanged by the sort. -/
lemma filter_qkey_sortQueue (k : Nat × Nat) (l : List QueueEntry) :
    (sortQueue l).filter (fun e => decide (qkey e = k)) =
      l.filter (fun e => decide (qkey e = k)) := by
  induction l with
  | nil => rfl
  | cons h t ih =>
    show (List.orderedInsert keyLe h (List.insertionSort keyLe t)).filter _ = _
    rw [filter_qkey_orderedInsert]
    by_cases hk : qkey h = k
    · rw [if_pos hk, List.filter_cons, if_pos (by simp [hk])]
      exact congrArg _ ih
    · rw [if_neg hk, List.filter_cons, if_neg (by simp [hk])]
      exact ih

/-- `this.ingestions.get(id)` on the association-list model of the `Map`. -/
def lookupIngestion : List (Nat × Ingestion) → Nat → Option Ingestion
  | [], _ => none
  | (k, v) :: rest, i => if k = i then some v else lookupIngestion rest i

/-- `ingestion.batches.find(b => b.batchId === bid)` after a `get`:
the batch object a queue item refers to. -/
def lookupBatch (m : List (Nat × Ingestion)) (iid bid : Nat) : Option Batch :=
  (lookupIngestion m iid).bind fun ing => ing.batches.find? fun b => b.batchId == bid

/-- In-place mutation of the record object stored under `iid`, as a
functional update of the store. -/
def updateIngestion (m : List (Nat × Ingestion)) (iid : Nat) (f : Ingestion → Ingestion) :
    List (Nat × Ingestion) :=
  m.map fun kv => if kv.1 = iid then (kv.1, f kv.2) else kv

/-- `batch.status = st` on the batch object with id `bid`, as a functional
update of the owning ingestion's batch list. -/
def setBatchStatus (bs : List Batch) (bid : Nat) (st : Status) : List Batch :=
  bs.map fun b => if b.batchId = bid then { b with status := st } else b

/-- `createIngestion(ids, priority)`: generates the ingestion id, calls
`createBatches`, stores the record with status `'yet_to_start'`, pushes one
queue item per batch (all sharing the one `createdAt` taken when the batches
are enqueued), and re-sorts the queue.  The `setImmediate(startProcessing)`
call only schedules the loop and changes no state here. -/
def createIngestion (s : ServiceState) (ids : List Int) (p : Priority) (now : Nat) :
    ServiceState × Nat :=
  let ingestionId := s.nextId
  let batches := createBatches ids (s.nextId + 1)
  let ing : Ingestion :=
    { id := ingestionId, priority := p, batches := batches, createdAt := now,
      status := .yet_to_start }
  let entries := batches.map fun b =>
    ({ ingestionId := ingestionId, batchId := b.batchId, priority := p,
       createdAt := now } : QueueEntry)
  ({ ingestions := (ingestionId, ing) :: s.ingestions,
     batchQueue := sortQueue (s.batchQueue ++ entries),
     inFlight := s.inFlight,
     nextId := s.nextId + 1 + batches.length }, ingestionId)

/-- The status computation of `getIngestionStatus`: `'completed'` if
`every` batch is completed, else `'triggered'` if `some` batch is triggered
or some batch is completed, else the initial `'yet_to_start'`. -/
def derivedStatus (bs : List Batch) : Status :=
  if bs.all (fun b => b.status == .completed) then .completed
  else if bs.any (fun b => b.status == .triggered)
      || bs.any (fun b => b.status == .completed) then .triggered
  else .yet_to_start

/-- One element of the `batches` array of the status payload. -/
structure BatchView where
  batch_id : Nat
  ids : List Int
  status : Status
deriving DecidableEq

/-- The status payload `{ ingestion_id, status, batches }`. -/
structure StatusRecord where
  ingestion_id : Nat
  status : Status
  batches : List BatchView
deriving DecidableEq

/-- `getIngestionStatus(ingestionId)`: `null` on a lookup miss, else the
payload with the status recomputed from the batches. -/
def getIngestionStatus (s : ServiceState) (iid : Nat) : Option StatusRecord :=
  match lookupIngestion s.ingestions iid with
  | none => none
  | some ing =>
    some { ingestion_id := iid, status := derivedStatus ing.batches,
           batches := ing.batches.map fun b =>
             { batch_id := b.batchId, ids := b.ids, status := b.status } }

/-- One iteration of the `while (this.batchQueue.length > 0)` body of
`processQueue`, up to but excluding the rate-limit wait: re-sort, `shift()`
the head item, skip it if its ingestion or batch is gone or the batch is not
`'yet_to_start'`; otherwise flip the ingestion to `'triggered'` if still
initial, flip the batch to `'triggered'` and launch `processBatch` in the
background (recorded in `inFlight`).  Returns the dispatched item, if any. -/
def dispatchStep (s : ServiceState) : ServiceState × Option QueueEntry :=
  match sortQueue s.batchQueue with
  | [] => (s, none)
  | qi :: rest =>
    match lookupIngestion s.ingestions qi.ingestionId with
    | none => ({ s with batchQueue := rest }, none)
    | some ing =>
      match ing.batches.find? fun b => b.batchId == qi.batchId with
      | none => ({ s with batchQueue := rest }, none)
      | some b =>
        if b.status = .yet_to_start then
          ({ s with
              batchQueue := rest,
              ingestions := updateIngestion s.ingestions qi.ingestionId fun ing2 =>
                { ing2 with
                  status := if ing2.status = .yet_to_start then .triggered else ing2.status,
                  batches := setBatchStatus ing2.batches qi.batchId .triggered },
              inFlight := (qi.ingestionId, qi.batchId) :: s.inFlight }, some qi)
        else ({ s with batchQueue := rest }, none)

/-- The completion callback `this.processBatch(batch).then(() => ...)`:
marks the batch `'completed'` and, if every batch of the owning ingestion is
then completed, marks the ingestion `'completed'`.  It fires once for an
in-flight background task. -/
def completeBatch (s : ServiceState) (iid bid : Nat) : ServiceState :=
  let ings1 := updateIngestion s.ingestions iid fun ing =>
    { ing with batches := setBatchStatus ing.batches bid .completed }
  let ings2 :=
    match lookupIngestion ings1 iid with
    | some ing =>
      if ing.batches.all (fun b => b.status == .completed) then
        updateIngestion ings1 iid fun ing2 => { ing2 with status := .completed }
      else ings1
    | none => ings1
  { s with ingestions := ings2, inFlight := s.inFlight.erase (iid, bid) }

/-- Result of the `POST /ingest` route: `res.json({ ingestion_id })` or a
`res.status(400).json(...)` validation fault. -/
inductive IngestResult
  | ok (ingestion_id : Nat)
  | badRequest (error : String)
deriving DecidableEq

/-- Whether the route answered with HTTP 400. -/
def IngestResult.isBadRequest : IngestResult → Bool
  | .badRequest _ => true
  | _ => false

/-- One element of the request's `ids` array as the route sees it: its
numeric value and whether `Number.isInteger` holds of it. -/
structure RawId where
  val : Int
  isInteger : Bool
deriving DecidableEq

/-- The request body `{ ids, priority }`: `ids` is `none` when the field is
missing or not an array, `priority` is `none` when the field is missing. -/
structure IngestBody where
  ids : Option (List RawId)
  priority : Option String
deriving DecidableEq

/-- `['HIGH', 'MEDIUM', 'LOW'].includes(priority)`; a missing field is in
none of them. -/
def validPriorityString : Option String → Bool
  | none => false
  | some p => p == "HIGH" || p == "MEDIUM" || p == "LOW"

/-- The priority literal as the enum (only reached on validated input). -/
def Priority.ofString : String → Priority
  | "HIGH" => .HIGH
  | "MEDIUM" => .MEDIUM
  | _ => .LOW

/-- `!Number.isInteger(id) || id < 1 || id > 1e9 + 7`. -/
def idOutOfRange (r : RawId) : Bool :=
  !r.isInteger || r.val < 1 || r.val > 1000000007

/-- The `router.post('/')` handler of the ingest route: the three validation
checks in source order, then the call into `createIngestion`. -/
def postIngest (s : ServiceState) (body : IngestBody) (now : Nat) :
    ServiceState × IngestResult :=
  match body.ids with
  | none => (s, .badRequest "ids must be a non-empty array")
  | some l =>
    if l.isEmpty then (s, .badRequest "ids must be a non-empty array")
    else if !validPriorityString body.priority then
      (s, .badRequest "priority must be HIGH, MEDIUM, or LOW")
    else if l.any idOutOfRange then
      (s, .badRequest "ids must be integers between 1 and 10^9+7")
    else
      match body.priority with
      | some ps =>
        let r := createIngestion s (l.map fun x => x.val) (Priority.ofString ps) now
        (r.1, .ok r.2)
      | none => (s, .badRequest "priority must be HIGH, MEDIUM, or LOW")

/-- Result of the `GET /status/:ingestionId` route: the payload or a
`res.status(404).json(...)` miss. -/
inductive StatusResult
  | ok (r : StatusRecord)
  | notFound
deriving DecidableEq

/-- The `router.get('/:ingestionId')` handler of the status route: a pure
lookup, mapping `null` to the 404 branch. -/
def statusHandler (s : ServiceState) (iid : Nat) : StatusResult :=
  match getIngestionStatus s iid with
  | none => .notFound
  | some r => .ok r

/-- The status aggregation exactly as §4.3 of the spec words it, for
comparison with the derived status of the source: `completed` iff the batch
list is non-empty and every batch is completed, else `dispatched`
(`triggered`) iff at least one batch is dispatched or completed, else
`pending` (`yet_to_start`). -/
def specAggregatedStatus (bs : List Batch) : Status :=
  if bs ≠ [] ∧ ∀ b ∈ bs, b.status = .completed then .completed
  else if ∃ b ∈ bs, b.status = .triggered ∨ b.status = .completed then .triggered
  else .yet_to_start

lemma derivedStatus_eq_spec (bs : List Batch) (h : bs ≠ []) :
    derivedStatus bs = specAggregatedStatus bs := by
  unfold derivedStatus specAggregatedStatus
  have h1 : (bs.all fun b => b.status == Status.completed) = true ↔
      (bs ≠ [] ∧ ∀ b ∈ bs, b.status = .completed) := by
    simp [List.all_eq_true, h]
  have h2 : ((bs.any fun b => b.status == Status.triggered)
        || bs.any fun b => b.status == Status.completed) = true ↔
      (∃ b ∈ bs, b.status = .triggered ∨ b.status = .completed) := by
    simp only [Bool.or_eq_true, List.any_eq_true, beq_iff_eq]
    constructor
    · rintro (⟨b, hb, hs⟩ | ⟨b, hb, hs⟩)
      · exact ⟨b, hb, Or.inl hs⟩
      · exact ⟨b, hb, Or.inr hs⟩
    · rintro ⟨b, hb, hs | hs⟩
      · exact Or.inl ⟨b, hb, hs⟩
      · exact Or.inr ⟨b, hb, hs⟩
  by_cases hall : (bs.all fun b => b.status == Status.completed) = true
  · rw [if_pos hall, if_pos (h1.mp hall)]
  · rw [if_neg hall, if_neg (fun hp => hall (h1.mpr hp))]
    by_cases hany : ((bs.any fun b => b.status == Status.triggered)
        || bs.any fun b => b.status == Status.completed) = true
    · rw [if_pos hany, if_pos (h2.mp hany)]
    · rw [if_neg hany, if_neg (fun hp => hany (h2.mpr hp))]

/-- C1: for every non-empty id list, the ingestion stored by
`createIngestion` partitions the ids into consecutive batches in order: the
batch count is `⌈|ids| / 3⌉`, every batch but the last holds exactly 3 ids,
the last holds `|ids| % 3` ids (or 3 when 3 divides `|ids|`), and the
concatenation of the batches' id lists in batch order is the input list. -/
theorem claim_batch_partition (s : ServiceState) (ids : List Int) (p : Priority) (now : Nat)
    (h : ids ≠ []) :
    ∃ ing, lookupIngestion (createIngestion s ids p now).1.ingestions
        (createIngestion s ids p now).2 = some ing ∧
      (ing.batches.map fun b => b.ids).length = (ids.length + 2) / 3 ∧
      (∀ l ∈ (ing.batches.map fun b => b.ids).dropLast, l.length = 3) ∧
      ((ing.batches.map fun b => b.ids).getLast?).map (fun l => l.length)
        = some (if ids.length % 3 = 0 then 3 else ids.length % 3) ∧
      (ing.batches.map fun b => b.ids).flatten = ids := by
  refine ⟨{ id := s.nextId, priority := p, batches := createBatches ids (s.nextId + 1),
            createdAt := now, status := .yet_to_start }, ?_, ?_, ?_, ?_, ?_⟩
  · simp [createIngestion, lookupIngestion]
  · rw [List.length_map]
    exact createBatches_length ids (s.nextId + 1)
  · intro l hl
    rw [← List.map_dropLast] at hl
    obtain ⟨b, hb, rfl⟩ := List.mem_map.mp hl
    exact createBatches_dropLast_len ids (s.nextId + 1) b hb
  · rw [List.getLast?_map, Option.map_map]
    exact createBatches_getLast_len ids (s.nextId + 1) h
  · exact createBatches_join ids (s.nextId + 1)

/-- C2 (amended to ingestions with at least one batch — the only ones the
admission contract registers; a zero-batch ingestion reachable only by a
contract-violating core call is the counterexample below): for a registered
ingestion whose batch list is non-empty, the status returned by
`getIngestionStatus` is exactly the spec's pure aggregation function of the
batch statuses, recomputed from the batches — in particular it does not
depend on the stored (independently mutated) `status` field. -/
theorem claim_status_is_spec_aggregation (s : ServiceState) (iid : Nat) (ing : Ingestion)
    (h : lookupIngestion s.ingestions iid = some ing) (hne : ing.batches ≠ []) :
    ∃ r, getIngestionStatus s iid = some r ∧
      r.status = specAggregatedStatus ing.batches := by
  refine ⟨{ ingestion_id := iid, status := derivedStatus ing.batches,
            batches := ing.batches.map fun b =>
              { batch_id := b.batchId, ids := b.ids, status := b.status } }, ?_, ?_⟩
  · unfold getIngestionStatus
    rw [h]
  · exact derivedStatus_eq_spec ing.batches hne

/-- C6: `getIngestionStatus` returns `none` (mapped to 404 by the status
route) exactly on a lookup miss, and otherwise the payload
`{ ingestion_id, status, batches : [{ batch_id, ids, status }] }`; the query
is a pure function of the state. -/
theorem claim_status_query (s : ServiceState) (iid : Nat) :
    (getIngestionStatus s iid = none ↔ lookupIngestion s.ingestions iid = none) ∧
    (∀ ing, lookupIngestion s.ingestions iid = some ing →
      getIngestionStatus s iid = some
        { ingestion_id := iid, status := derivedStatus ing.batches,
          batches := ing.batches.map fun b =>
            { batch_id := b.batchId, ids := b.ids, status := b.status } }) ∧
    (statusHandler s iid = .notFound ↔ lookupIngestion s.ingestions iid = none) := by
  unfold statusHandler getIngestionStatus
  cases h : lookupIngestion s.ingestions iid <;> simp

/-- C10: at the core interface, `createIngestion` applied to the empty id
list succeeds: it registers an ingestion with zero batches and returns its
fresh id, and `getIngestionStatus` then reports status `completed` with an
empty batch list, the all-batches-completed check being vacuously true. -/
theorem claim_empty_ids_completed :
    (∃ ing, lookupIngestion (createIngestion initialState [] Priority.HIGH 0).1.ingestions
        (createIngestion initialState [] Priority.HIGH 0).2 = some ing ∧
      ing.batches = []) ∧
    getIngestionStatus (createIngestion initialState [] Priority.HIGH 0).1
        (createIngestion initialState [] Priority.HIGH 0).2
      = some { ingestion_id := 0, status := .completed, batches := [] } := by
  constructor
  · exact ⟨{ id := 0, priority := .HIGH, batches := [], createdAt := 0,
             status := .yet_to_start }, by decide, rfl⟩
  · decide

lemma dispatched_head (s : ServiceState) (qi : QueueEntry)
    (h : (dispatchStep s).2 = some qi) :
    ∃ rest, sortQueue s.batchQueue = qi :: rest := by
  unfold dispatchStep at h
  split at h
  · exact absurd h (by simp)
  next qh rest hsort =>
    split at h
    · simp at h
    · split at h
      · simp at h
      · split at h
        · simp only [Option.some.injEq] at h
          exact ⟨rest, h ▸ hsort⟩
        · simp at h

/-- C3: the scheduler re-sorts the whole pending queue by (priority rank,
enqueue time) immediately before popping, so whenever an entry is
dispatched, no entry of strictly higher priority is pending anywhere in the
queue — the statement quantifies over the current queue, so it also covers
entries enqueued after the loop started. -/
theorem claim_dispatch_priority (s : ServiceState) (qi : QueueEntry)
    (h : (dispatchStep s).2 = some qi) :
    qi ∈ s.batchQueue ∧
      ∀ e ∈ s.batchQueue, priorityOrder qi.priority ≤ priorityOrder e.priority := by
  obtain ⟨rest, hsort⟩ := dispatched_head s qi h
  constructor
  · exact mem_sortQueue.mp (hsort ▸ List.mem_cons_self qi rest)
  · intro e he
    have hmem : e ∈ qi :: rest := hsort ▸ mem_sortQueue.mpr he
    rcases List.mem_cons.mp hmem with rfl | hr
    · exact Nat.le_refl _
    · have hle : keyLe qi e := by
        have hs := sortQueue_sorted s.batchQueue
        rw [hsort] at hs
        exact List.rel_of_sorted_cons hs e hr
      unfold keyLe at hle
      omega

/-- Validity of a request body as C5 words it: `ids` is a non-empty array,
every id is an integer in `[1, 10^9 + 7]`, and `priority` is one of the
three literals. -/
def ValidBody (b : IngestBody) : Prop :=
  ∃ l, b.ids = some l ∧ l ≠ [] ∧
    (∀ r ∈ l, r.isInteger = true ∧ 1 ≤ r.val ∧ r.val ≤ 1000000007) ∧
    (b.priority = some "HIGH" ∨ b.priority = some "MEDIUM" ∨ b.priority = some "LOW")

lemma validPriorityString_iff (p : Option String) :
    validPriorityString p = true ↔
      (p = some "HIGH" ∨ p = some "MEDIUM" ∨ p = some "LOW") := by
  rcases p with _ | ps <;> simp [validPriorityString, or_assoc]

lemma idOutOfRange_false_iff (r : RawId) :
    idOutOfRange r = false ↔
      (r.isInteger = true ∧ 1 ≤ r.val ∧ r.val ≤ 1000000007) := by
  rcases r with ⟨v, i⟩
  rcases i
  · simp [idOutOfRange]
  · simp only [idOutOfRange, Bool.not_true, Bool.false_or, Bool.or_eq_false_iff,
      decide_eq_false_iff_not, Int.not_lt, true_and]

lemma any_idOutOfRange_iff (l : List RawId) :
    l.any idOutOfRange = false ↔
      ∀ r ∈ l, r.isInteger = true ∧ 1 ≤ r.val ∧ r.val ≤ 1000000007 := by
  rw [List.any_eq_false]
  constructor
  · intro hall r hr
    have := hall r hr
    rw [Bool.not_eq_true] at this
    exact (idOutOfRange_false_iff r).mp this
  · intro hall r hr
    rw [Bool.not_eq_true]
    exact (idOutOfRange_false_iff r).mpr (hall r hr)

/-- C5: the ingest route answers HTTP 400 exactly when `ids` is not a
non-empty array, or some id is not an integer in `[1, 10^9 + 7]`, or
`priority` is not one of the three literals; and in the 400 case the state
is unchanged — no partial ingestion is ever created. -/
theorem claim_validation (s : ServiceState) (body : IngestBody) (now : Nat) :
    ((postIngest s body now).2.isBadRequest = true ↔ ¬ ValidBody body) ∧
    ((postIngest s body now).2.isBadRequest = true → (postIngest s body now).1 = s) := by
  rcases body with ⟨bids, bpr⟩
  rcases bids with _ | l
  · refine ⟨?_, fun _ => rfl⟩
    simp only [postIngest, IngestResult.isBadRequest, true_iff]
    rintro ⟨l, hl, -⟩
    exact Option.noConfusion hl
  by_cases hemp : l.isEmpty = true
  · have hl : l = [] := List.isEmpty_iff.mp hemp
    subst hl
    have hres : postIngest s ⟨some [], bpr⟩ now
        = (s, .badRequest "ids must be a non-empty array") := rfl
    rw [hres]
    refine ⟨?_, fun _ => rfl⟩
    simp only [IngestResult.isBadRequest, true_iff]
    rintro ⟨l2, hl2, hne, -⟩
    simp only [Option.some.injEq] at hl2
    exact hne hl2.symm
  have hempf : l.isEmpty = false := Bool.eq_false_iff.mpr hemp
  by_cases hpr : validPriorityString bpr = true
  · by_cases hrange : l.any idOutOfRange = true
    · have hres : postIngest s ⟨some l, bpr⟩ now
          = (s, .badRequest "ids must be integers between 1 and 10^9+7") := by
        simp [postIngest, hempf, hpr, hrange]
      rw [hres]
      refine ⟨?_, fun _ => rfl⟩
      simp only [IngestResult.isBadRequest, true_iff]
      rintro ⟨l2, hl2, -, hall, -⟩
      simp only [Option.some.injEq] at hl2
      subst hl2
      rw [← any_idOutOfRange_iff] at hall
      rw [hall] at hrange
      exact Bool.noConfusion hrange
    · have hrangef : l.any idOutOfRange = false := Bool.eq_false_iff.mpr hrange
      rcases hps : bpr with _ | ps
      · rw [hps] at hpr
        exact absurd hpr (by simp [validPriorityString])
      have hres : postIngest s ⟨some l, some ps⟩ now
          = ((createIngestion s (l.map fun x => x.val) (Priority.ofString ps) now).1,
             .ok (createIngestion s (l.map fun x => x.val) (Priority.ofString ps) now).2) := by
        rw [hps] at hpr
        simp [postIngest, hempf, hpr, hrangef]
      rw [hres]
      refine ⟨?_, ?_⟩
      · refine iff_of_false (by simp [IngestResult.isBadRequest]) (not_not_intro ?_)
        rw [hps] at hpr
        exact ⟨l, rfl, fun hn => hemp (by simp [hn]),
          (any_idOutOfRange_iff l).mp hrangef,
          (validPriorityString_iff (some ps)).mp hpr⟩
      · intro habs
        exact absurd habs (by simp [IngestResult.isBadRequest])
  · have hprf : validPriorityString bpr = false := Bool.eq_false_iff.mpr hpr
    have hres : postIngest s ⟨some l, bpr⟩ now
        = (s, .badRequest "priority must be HIGH, MEDIUM, or LOW") := by
      simp [postIngest, hempf, hprf]
    rw [hres]
    refine ⟨?_, fun _ => rfl⟩
    simp only [IngestResult.isBadRequest, true_iff]
    rintro ⟨l2, hl2, -, -, hpr3⟩
    rw [← validPriorityString_iff] at hpr3
    rw [hpr3] at hprf
    exact Bool.noConfusion hprf

/-- C4: `createIngestion` never partially succeeds — the one operation
registers the ingestion record with all of its batches in the initial
`yet_to_start` status and the creation timestamp, and (given a fresh
ingestion id, which the uuid generator guarantees) the pending queue
afterwards holds exactly one entry per batch of the new ingestion, in
original batch order, all carrying the single creation timestamp `now`:
the filtered queue is literally the per-batch entry list.  Batch-order
preservation among the equal-keyed new entries is the stability of the
sort. -/
theorem claim_create_atomic (s : ServiceState) (ids : List Int) (p : Priority) (now : Nat)
    (hfresh : ∀ e ∈ s.batchQueue, e.ingestionId ≠ s.nextId) :
    ∃ ing,
      lookupIngestion (createIngestion s ids p now).1.ingestions
          (createIngestion s ids p now).2 = some ing ∧
      (∀ b ∈ ing.batches, b.status = .yet_to_start) ∧
      ing.createdAt = now ∧
      (createIngestion s ids p now).1.batchQueue.filter
          (fun e => e.ingestionId == s.nextId) =
        ing.batches.map (fun b =>
          { ingestionId := s.nextId, batchId := b.batchId,
            priority := p, createdAt := now }) := by
  refine ⟨{ id := s.nextId, priority := p, batches := createBatches ids (s.nextId + 1),
            createdAt := now, status := .yet_to_start }, ?_, ?_, rfl, ?_⟩
  · simp [createIngestion, lookupIngestion]
  · exact createBatches_status ids (s.nextId + 1)
  show (sortQueue (s.batchQueue ++ (createBatches ids (s.nextId + 1)).map fun b =>
      ({ ingestionId := s.nextId, batchId := b.batchId, priority := p,
         createdAt := now } : QueueEntry))).filter (fun e => e.ingestionId == s.nextId) = _
  set entries := (createBatches ids (s.nextId + 1)).map (fun b =>
    ({ ingestionId := s.nextId, batchId := b.batchId, priority := p,
       createdAt := now } : QueueEntry)) with hentries
  set bigQ := s.batchQueue ++ entries with hbigQ
  have hkey : ∀ e ∈ bigQ, (e.ingestionId == s.nextId) = true →
      qkey e = (priorityOrder p, now) := by
    intro e he hid
    rcases List.mem_append.mp he with hold | hnew
    · exact absurd (eq_of_beq hid) (hfresh e hold)
    · obtain ⟨b, -, rfl⟩ := List.mem_map.mp hnew
      rfl
  have hcongr : ∀ (x : List QueueEntry), (∀ e ∈ x, e ∈ bigQ) →
      x.filter (fun e => e.ingestionId == s.nextId) =
        x.filter (fun e => (e.ingestionId == s.nextId)
          && decide (qkey e = (priorityOrder p, now))) := by
    intro x hx
    apply List.filter_congr
    intro e he
    rcases hb : e.ingestionId == s.nextId
    · rfl
    · rw [Bool.true_and, decide_eq_true (hkey e (hx e he) hb)]
  rw [hcongr (sortQueue bigQ) (fun e he => mem_sortQueue.mp he)]
  rw [← List.filter_filter]
  rw [filter_qkey_sortQueue]
  rw [List.filter_filter]
  rw [← hcongr bigQ (fun e he => he)]
  rw [hbigQ, List.filter_append]
  rw [List.filter_eq_nil_iff.mpr (fun e he hb => hfresh e he (eq_of_beq hb))]
  rw [List.nil_append]
  rw [List.filter_eq_self.mpr ?hall]
  case hall =>
    intro e he
    obtain ⟨b, -, rfl⟩ := List.mem_map.mp he
    exact beq_self_eq_true _

lemma lookupIngestion_updateIngestion (m : List (Nat × Ingestion)) (iid : Nat)
    (f : Ingestion → Ingestion) (j : Nat) :
    lookupIngestion (updateIngestion m iid f) j =
      if j = iid then (lookupIngestion m j).map f else lookupIngestion m j := by
  induction m with
  | nil =>
    simp only [updateIngestion, List.map_nil, lookupIngestion]
    split <;> rfl
  | cons kv rest ih =>
    rcases kv with ⟨k, v⟩
    show lookupIngestion
        ((if k = iid then (k, f v) else (k, v)) :: updateIngestion rest iid f) j = _
    by_cases hk : k = iid
    · subst hk
      rw [if_pos rfl]
      by_cases hj : k = j
      · subst hj
        simp [lookupIngestion]
      · simp [lookupIngestion, hj, ih]
    · rw [if_neg hk]
      by_cases hj : k = j
      · subst hj
        simp [lookupIngestion, hk]
      · simp [lookupIngestion, hj, ih]

lemma find?_setBatchStatus (bs : List Batch) (bid : Nat) (st : Status) (bid2 : Nat) :
    (setBatchStatus bs bid st).find? (fun b => b.batchId == bid2) =
      ((bs.find? fun b => b.batchId == bid2).map
        fun b => if b.batchId = bid then { b with status := st } else b) := by
  induction bs with
  | nil => rfl
  | cons b t ih =>
    have hpres : (if b.batchId = bid then { b with status := st } else b).batchId
        = b.batchId := by
      split <;> rfl
    show ((if b.batchId = bid then { b with status := st } else b)
        :: setBatchStatus t bid st).find? (fun b2 => b2.batchId == bid2) = _
    rcases hb : b.batchId == bid2
    · simp only [List.find?, hpres, hb]
      exact ih
    · simp only [List.find?, hpres, hb]
      rfl

lemma lookupBatch_update_other (m : List (Nat × Ingestion)) (iid : Nat)
    (f : Ingestion → Ingestion) (j bid : Nat) (hj : j ≠ iid) :
    lookupBatch (updateIngestion m iid f) j bid = lookupBatch m j bid := by
  unfold lookupBatch
  rw [lookupIngestion_updateIngestion, if_neg hj]

lemma lookupBatch_update_setStatus (m : List (Nat × Ingestion)) (iid bid : Nat)
    (st : Status) (f : Ingestion → Ingestion)
    (hf : ∀ ing, (f ing).batches = setBatchStatus ing.batches bid st) (bid2 : Nat) :
    lookupBatch (updateIngestion m iid f) iid bid2 =
      (lookupBatch m iid bid2).map
        fun b => if b.batchId = bid then { b with status := st } else b := by
  unfold lookupBatch
  rw [lookupIngestion_updateIngestion, if_pos rfl]
  cases lookupIngestion m iid with
  | none => rfl
  | some ing =>
    show (f ing).batches.find? (fun b => b.batchId == bid2) = _
    rw [hf ing, find?_setBatchStatus]
    rfl

lemma lookupBatch_update_sameBatches (m : List (Nat × Ingestion)) (iid : Nat)
    (f : Ingestion → Ingestion) (hf : ∀ ing, (f ing).batches = ing.batches)
    (j bid : Nat) :
    lookupBatch (updateIngestion m iid f) j bid = lookupBatch m j bid := by
  unfold lookupBatch
  rw [lookupIngestion_updateIngestion]
  split
  · cases lookupIngestion m j with
    | none => rfl
    | some ing =>
      show (f ing).batches.find? (fun b => b.batchId == bid) = _
      rw [hf ing]
      rfl
  · rfl

lemma find?_batchId_eq {bs : List Batch} {bid : Nat} {b : Batch}
    (h : bs.find? (fun b2 => b2.batchId == bid) = some b) : b.batchId = bid := by
  have hp := List.find?_some h
  exact eq_of_beq hp

lemma lookupBatch_batchId {m : List (Nat × Ingestion)} {iid bid : Nat} {b : Batch}
    (h : lookupBatch m iid bid = some b) : b.batchId = bid := by
  unfold lookupBatch at h
  rcases hl : lookupIngestion m iid with _ | ing
  · rw [hl] at h
    exact Option.noConfusion h
  · rw [hl] at h
    exact find?_batchId_eq h

lemma lookupIngestion_key_mem {m : List (Nat × Ingestion)} {i : Nat} {v : Ingestion}
    (h : lookupIngestion m i = some v) : ∃ kv ∈ m, kv.1 = i ∧ kv.2 = v := by
  induction m with
  | nil => exact Option.noConfusion h
  | cons kv rest ih =>
    rcases kv with ⟨k, w⟩
    by_cases hk : k = i
    · subst hk
      rw [lookupIngestion, if_pos rfl] at h
      exact ⟨(k, w), List.mem_cons_self _ _, rfl, Option.some.inj h⟩
    · rw [lookupIngestion, if_neg hk] at h
      obtain ⟨kv2, hkv2, hfst, hsnd⟩ := ih h
      exact ⟨kv2, List.mem_cons_of_mem _ hkv2, hfst, hsnd⟩

/-- The state component of `dispatchStep` in each of its exit branches:
either nothing was popped (empty queue), or the head entry was popped and
possibly dispatched. -/
lemma dispatchStep_cases (s : ServiceState) :
    ((dispatchStep s).1 = s ∧ (dispatchStep s).2 = none ∧ sortQueue s.batchQueue = []) ∨
    (∃ qh rest, sortQueue s.batchQueue = qh :: rest ∧
      ((dispatchStep s).1 = { s with batchQueue := rest } ∧ (dispatchStep s).2 = none ∨
       (dispatchStep s).2 = some qh ∧
        ∃ b, lookupBatch s.ingestions qh.ingestionId qh.batchId = some b ∧
          b.status = .yet_to_start ∧
          (dispatchStep s).1 = { s with
            batchQueue := rest,
            ingestions := updateIngestion s.ingestions qh.ingestionId fun ing2 =>
              { ing2 with
                status := if ing2.status = .yet_to_start then .triggered else ing2.status,
                batches := setBatchStatus ing2.batches qh.batchId .triggered },
            inFlight := (qh.ingestionId, qh.batchId) :: s.inFlight })) := by
  unfold dispatchStep
  split
  next hsort => exact Or.inl ⟨rfl, rfl, hsort⟩
  next qh rest hsort =>
    refine Or.inr ⟨qh, rest, hsort, ?_⟩
    split
    next hlook => exact Or.inl ⟨rfl, rfl⟩
    next ing hlook =>
      split
      next hfind => exact Or.inl ⟨rfl, rfl⟩
      next b hfind =>
        by_cases hst : b.status = .yet_to_start
        · rw [if_pos hst]
          refine Or.inr ⟨rfl, b, ?_, hst, rfl⟩
          unfold lookupBatch
          rw [hlook]
          exact hfind
        · rw [if_neg hst]
          exact Or.inl ⟨rfl, rfl⟩

/-- C7: batch statuses are monotonic under every operation of the system:
whatever batch `(iid, bid)` resolves to before the operation, it resolves to
a batch with the same or a later status after `createIngestion` (with the
generated ingestion id fresh, as uuids are), after a `dispatchStep`, and
after any completion callback. -/
theorem claim_batch_monotonic (s : ServiceState) (iid bid : Nat) (b : Batch)
    (hb : lookupBatch s.ingestions iid bid = some b) :
    (∀ ids p now, (∀ kv ∈ s.ingestions, kv.1 ≠ s.nextId) →
      ∃ b2, lookupBatch (createIngestion s ids p now).1.ingestions iid bid = some b2 ∧
        statusRank b.status ≤ statusRank b2.status) ∧
    (∃ b2, lookupBatch (dispatchStep s).1.ingestions iid bid = some b2 ∧
      statusRank b.status ≤ statusRank b2.status) ∧
    (∀ j k, ∃ b2, lookupBatch (completeBatch s j k).ingestions iid bid = some b2 ∧
      statusRank b.status ≤ statusRank b2.status) := by
  have hupd : ∀ m2 iid2 bid2 st,
      lookupBatch (updateIngestion m2 iid2 fun ing2 =>
          { ing2 with
            status := if ing2.status = Status.yet_to_start then .triggered else ing2.status,
            batches := setBatchStatus ing2.batches bid2 st }) iid2 bid =
        (lookupBatch m2 iid2 bid).map
          fun b2 => if b2.batchId = bid2 then { b2 with status := st } else b2 :=
    fun m2 iid2 bid2 st =>
      lookupBatch_update_setStatus m2 iid2 bid2 st _ (fun ing2 => rfl) bid
  refine ⟨?_, ?_, ?_⟩
  · intro ids p now hkeys
    have hne : iid ≠ s.nextId := by
      intro heq
      unfold lookupBatch at hb
      rcases hl : lookupIngestion s.ingestions iid with _ | ing
      · rw [hl] at hb
        exact Option.noConfusion hb
      · obtain ⟨kv, hkv, hfst, -⟩ := lookupIngestion_key_mem hl
        exact hkeys kv hkv (hfst.trans heq)
    refine ⟨b, ?_, Nat.le_refl _⟩
    show lookupBatch ((s.nextId, _) :: s.ingestions) iid bid = some b
    unfold lookupBatch at hb ⊢
    rw [lookupIngestion, if_neg (fun h => hne h.symm)]
    exact hb
  · rcases dispatchStep_cases s with ⟨hs, -, -⟩ | ⟨qh, rest, -, ⟨hs, -⟩ | ⟨-, bd, hbd, hst, hs⟩⟩
    · exact ⟨b, by rw [hs]; exact hb, Nat.le_refl _⟩
    · exact ⟨b, by rw [hs]; exact hb, Nat.le_refl _⟩
    · rw [hs]
      by_cases hj : iid = qh.ingestionId
      · subst hj
        dsimp only
        rw [hupd s.ingestions qh.ingestionId qh.batchId .triggered, hb]
        by_cases hbid : b.batchId = qh.batchId
        · have hbidb : bid = qh.batchId := (lookupBatch_batchId hb).symm.trans hbid
          have hbb : b = bd := by
            rw [hbidb] at hb
            exact Option.some.inj (hb.symm.trans hbd)
          refine ⟨_, rfl, ?_⟩
          show statusRank b.status ≤ statusRank
            (if b.batchId = qh.batchId then { b with status := Status.triggered } else b).status
          rw [if_pos hbid, hbb, hst]
          show statusRank Status.yet_to_start ≤ statusRank Status.triggered
          decide
        · refine ⟨_, rfl, ?_⟩
          show statusRank b.status ≤ statusRank
            (if b.batchId = qh.batchId then { b with status := Status.triggered } else b).status
          rw [if_neg hbid]
      · rw [lookupBatch_update_other _ _ _ _ _ hj]
        exact ⟨b, hb, Nat.le_refl _⟩
  · intro j k
    unfold completeBatch
    dsimp only
    have step1 : ∃ b2, lookupBatch (updateIngestion s.ingestions j fun ing =>
        { ing with batches := setBatchStatus ing.batches k .completed }) iid bid
          = some b2 ∧ statusRank b.status ≤ statusRank b2.status := by
      by_cases hj : iid = j
      · subst hj
        rw [lookupBatch_update_setStatus _ _ k .completed _ (fun ing2 => rfl) bid, hb]
        refine ⟨_, rfl, ?_⟩
        show statusRank b.status ≤ statusRank
          (if b.batchId = k then { b with status := Status.completed } else b).status
        by_cases hbid : b.batchId = k
        · rw [if_pos hbid]
          show statusRank b.status ≤ statusRank Status.completed
          cases b.status <;> decide
        · rw [if_neg hbid]
      · rw [lookupBatch_update_other _ _ _ _ _ hj]
        exact ⟨b, hb, Nat.le_refl _⟩
    obtain ⟨b2, hb2, hle⟩ := step1
    split
    · split
      · refine ⟨b2, ?_, hle⟩
        rw [lookupBatch_update_sameBatches _ j
          (fun ing2 => { ing2 with status := Status.completed }) (fun ing => rfl) iid bid]
        exact hb2
      · exact ⟨b2, hb2, hle⟩
    · exact ⟨b2, hb2, hle⟩

/-- States reachable by the operations of the service: construction, the
three state-changing events (admission, one dispatch-loop iteration, one
background completion callback — the latter only for a task actually in
flight).  Status queries read the state and are not listed. -/
inductive Reachable : ServiceState → Prop
  | init : Reachable initialState
  | create (s : ServiceState) (ids : List Int) (p : Priority) (now : Nat) :
      Reachable s → Reachable (createIngestion s ids p now).1
  | dispatch (s : ServiceState) : Reachable s → Reachable (dispatchStep s).1
  | complete (s : ServiceState) (iid bid : Nat) : Reachable s →
      (iid, bid) ∈ s.inFlight → Reachable (completeBatch s iid bid)

/-- The inductive invariant of the service state: every queue entry points at
an existing `yet_to_start` batch, queue entries are unique per batch, every
in-flight background task points at an existing `triggered` batch, in-flight
tasks are unique, and all generated identifiers are below the freshness
counter. -/
structure Inv (s : ServiceState) : Prop where
  queue_pending : ∀ e ∈ s.batchQueue, ∃ b,
    lookupBatch s.ingestions e.ingestionId e.batchId = some b ∧ b.status = .yet_to_start
  queue_nodup : (s.batchQueue.map fun e => (e.ingestionId, e.batchId)).Nodup
  inflight_triggered : ∀ q ∈ s.inFlight, ∃ b,
    lookupBatch s.ingestions q.1 q.2 = some b ∧ b.status = .triggered
  inflight_nodup : s.inFlight.Nodup
  key_lt : ∀ kv ∈ s.ingestions, kv.1 < s.nextId
  batch_lt : ∀ kv ∈ s.ingestions, ∀ b ∈ kv.2.batches, b.batchId < s.nextId

lemma inv_initial : Inv initialState := by
  constructor <;> simp [initialState]

lemma lookupIngestion_cons_of_ne {m : List (Nat × Ingestion)} {k j : Nat} {v : Ingestion}
    (h : k ≠ j) : lookupIngestion ((k, v) :: m) j = lookupIngestion m j := by
  rw [lookupIngestion, if_neg h]

lemma lookupBatch_key_lt {s : ServiceState} (hinv : Inv s) {j bid : Nat} {b : Batch}
    (h : lookupBatch s.ingestions j bid = some b) : j < s.nextId := by
  unfold lookupBatch at h
  rcases hl : lookupIngestion s.ingestions j with _ | ing
  · rw [hl] at h
    exact Option.noConfusion h
  · obtain ⟨kv, hkv, hfst, -⟩ := lookupIngestion_key_mem hl
    exact hfst ▸ hinv.key_lt kv hkv

lemma mem_updateIngestion {m : List (Nat × Ingestion)} {iid : Nat} {f : Ingestion → Ingestion}
    {kv2 : Nat × Ingestion} (h : kv2 ∈ updateIngestion m iid f) :
    ∃ kv ∈ m, kv2.1 = kv.1 ∧ (kv2.2 = kv.2 ∨ kv2.2 = f kv.2) := by
  obtain ⟨kv, hkv, heq⟩ := List.mem_map.mp h
  by_cases hk : kv.1 = iid
  · rw [if_pos hk] at heq
    exact ⟨kv, hkv, by rw [← heq], Or.inr (by rw [← heq])⟩
  · rw [if_neg hk] at heq
    exact ⟨kv, hkv, by rw [← heq], Or.inl (by rw [← heq])⟩

lemma mem_setBatchStatus {bs : List Batch} {bid : Nat} {st : Status} {b2 : Batch}
    (h : b2 ∈ setBatchStatus bs bid st) : ∃ b ∈ bs, b2.batchId = b.batchId := by
  obtain ⟨b, hb, heq⟩ := List.mem_map.mp h
  refine ⟨b, hb, ?_⟩
  rw [← heq]
  split <;> rfl

lemma inv_create (s : ServiceState) (ids : List Int) (p : Priority) (now : Nat)
    (hinv : Inv s) : Inv (createIngestion s ids p now).1 := by
  have hb_lt : ∀ b ∈ createBatches ids (s.nextId + 1), s.nextId + 1 ≤ b.batchId ∧
      b.batchId < s.nextId + 1 + (createBatches ids (s.nextId + 1)).length := by
    intro b hb
    have hmem : b.batchId ∈ (createBatches ids (s.nextId + 1)).map (fun b => b.batchId) :=
      List.mem_map_of_mem _ hb
    rw [createBatches_batchIds, List.mem_range'] at hmem
    obtain ⟨i, hi, hexpr⟩ := hmem
    omega
  have hold_look : ∀ j v, lookupIngestion s.ingestions j = some v →
      lookupIngestion (createIngestion s ids p now).1.ingestions j = some v := by
    intro j v hj
    obtain ⟨kv, hkv, hfst, -⟩ := lookupIngestion_key_mem hj
    have hlt : j < s.nextId := hfst ▸ hinv.key_lt kv hkv
    show lookupIngestion ((s.nextId, _) :: s.ingestions) j = some v
    rw [lookupIngestion_cons_of_ne (by omega)]
    exact hj
  have hold_batch : ∀ j bid b, lookupBatch s.ingestions j bid = some b →
      lookupBatch (createIngestion s ids p now).1.ingestions j bid = some b := by
    intro j bid b hj
    unfold lookupBatch at hj ⊢
    rcases hl : lookupIngestion s.ingestions j with _ | v
    · rw [hl] at hj
      exact Option.noConfusion hj
    · rw [hold_look j v hl]
      rw [hl] at hj
      exact hj
  refine ⟨?_, ?_, ?_, hinv.inflight_nodup, ?_, ?_⟩
  · intro e he
    have he2 : e ∈ s.batchQueue ++ (createBatches ids (s.nextId + 1)).map (fun b =>
        ({ ingestionId := s.nextId, batchId := b.batchId, priority := p,
           createdAt := now } : QueueEntry)) := mem_sortQueue.mp he
    rcases List.mem_append.mp he2 with hold | hnew
    · obtain ⟨b, hfb, hpend⟩ := hinv.queue_pending e hold
      exact ⟨b, hold_batch _ _ _ hfb, hpend⟩
    · obtain ⟨b0, hb0, rfl⟩ := List.mem_map.mp hnew
      have hsome : ((createBatches ids (s.nextId + 1)).find? fun b =>
          b.batchId == b0.batchId).isSome :=
        List.find?_isSome.mpr ⟨b0, hb0, beq_self_eq_true _⟩
      obtain ⟨b1, hb1⟩ := Option.isSome_iff_exists.mp hsome
      refine ⟨b1, ?_, createBatches_status ids (s.nextId + 1) b1
        (List.mem_of_find?_eq_some hb1)⟩
      show (lookupIngestion ((s.nextId, _) :: s.ingestions) s.nextId).bind _ = some b1
      rw [lookupIngestion, if_pos rfl]
      exact hb1
  · have hnodup : ((s.batchQueue ++ (createBatches ids (s.nextId + 1)).map (fun b =>
        ({ ingestionId := s.nextId, batchId := b.batchId, priority := p,
           createdAt := now } : QueueEntry))).map
          fun e => (e.ingestionId, e.batchId)).Nodup := by
      rw [List.map_append, List.nodup_append]
      refine ⟨hinv.queue_nodup, ?_, ?_⟩
      · rw [List.map_map]
        have heq : ((fun e : QueueEntry => (e.ingestionId, e.batchId)) ∘ (fun b : Batch =>
            ({ ingestionId := s.nextId, batchId := b.batchId, priority := p,
               createdAt := now } : QueueEntry)))
            = (fun n => (s.nextId, n)) ∘ (fun b : Batch => b.batchId) := rfl
        rw [heq, ← List.map_map, createBatches_batchIds]
        refine List.Nodup.map ?_ (List.nodup_range' _ _)
        intro a b hab
        injection hab
      · intro a ha hb
        obtain ⟨e, he, rfl⟩ := List.mem_map.mp ha
        obtain ⟨e2, he2, heq2⟩ := List.mem_map.mp hb
        obtain ⟨b, hfb, -⟩ := hinv.queue_pending e he
        have hlt : e.ingestionId < s.nextId := lookupBatch_key_lt hinv hfb
        obtain ⟨b0, hb0, rfl⟩ := List.mem_map.mp he2
        have hfst : s.nextId = e.ingestionId := congrArg Prod.fst heq2
        omega
    exact (((sortQueue_perm _).map _).nodup_iff).mpr hnodup
  · intro q hq
    obtain ⟨b, hfb, htrig⟩ := hinv.inflight_triggered q hq
    exact ⟨b, hold_batch _ _ _ hfb, htrig⟩
  · intro kv hkv
    rcases List.mem_cons.mp hkv with heq | hmem
    · show kv.1 < s.nextId + 1 + (createBatches ids (s.nextId + 1)).length
      rw [heq]
      show s.nextId < s.nextId + 1 + (createBatches ids (s.nextId + 1)).length
      omega
    · have := hinv.key_lt kv hmem
      show kv.1 < s.nextId + 1 + (createBatches ids (s.nextId + 1)).length
      omega
  · intro kv hkv b hb
    rcases List.mem_cons.mp hkv with heq | hmem
    · show b.batchId < s.nextId + 1 + (createBatches ids (s.nextId + 1)).length
      have hb2 : b ∈ createBatches ids (s.nextId + 1) := by
        have := heq ▸ hb
        exact this
      exact (hb_lt b hb2).2
    · have := hinv.batch_lt kv hmem b hb
      show b.batchId < s.nextId + 1 + (createBatches ids (s.nextId + 1)).length
      omega

lemma inv_dispatch (s : ServiceState) (hinv : Inv s) : Inv (dispatchStep s).1 := by
  rcases dispatchStep_cases s with ⟨hs, -, -⟩ | ⟨qh, rest, hsort, hcase⟩
  · rw [hs]
    exact hinv
  have hsortnodup : ((qh :: rest).map fun e => (e.ingestionId, e.batchId)).Nodup := by
    rw [← hsort]
    exact (((sortQueue_perm s.batchQueue).map _).nodup_iff).mpr hinv.queue_nodup
  rw [List.map_cons] at hsortnodup
  have hkeyqh : ∀ e ∈ rest, (e.ingestionId, e.batchId) ≠ (qh.ingestionId, qh.batchId) := by
    intro e he heq
    exact (List.nodup_cons.mp hsortnodup).1 (heq ▸ List.mem_map_of_mem _ he)
  have hrest_mem : ∀ e ∈ rest, e ∈ s.batchQueue := by
    intro e he
    exact mem_sortQueue.mp (hsort ▸ List.mem_cons_of_mem _ he)
  have hrest_nodup : (rest.map fun e => (e.ingestionId, e.batchId)).Nodup :=
    (List.nodup_cons.mp hsortnodup).2
  rcases hcase with ⟨hs, -⟩ | ⟨-, bd, hbd, hst, hs⟩
  · rw [hs]
    exact ⟨fun e he => hinv.queue_pending e (hrest_mem e he), hrest_nodup,
      hinv.inflight_triggered, hinv.inflight_nodup, hinv.key_lt, hinv.batch_lt⟩
  · rw [hs]
    have hbdid : bd.batchId = qh.batchId := lookupBatch_batchId hbd
    have hupd : ∀ bid2, lookupBatch (updateIngestion s.ingestions qh.ingestionId fun ing2 =>
        { ing2 with
          status := if ing2.status = Status.yet_to_start then .triggered else ing2.status,
          batches := setBatchStatus ing2.batches qh.batchId .triggered })
          qh.ingestionId bid2 =
        (lookupBatch s.ingestions qh.ingestionId bid2).map
          fun b2 => if b2.batchId = qh.batchId then { b2 with status := .triggered } else b2 :=
      fun bid2 => lookupBatch_update_setStatus _ _ _ _ _ (fun ing2 => rfl) bid2
    refine ⟨?_, hrest_nodup, ?_, ?_, ?_, ?_⟩
    · intro e he
      obtain ⟨b, hfb, hpend⟩ := hinv.queue_pending e (hrest_mem e he)
      by_cases hj : e.ingestionId = qh.ingestionId
      · have hbidne : e.batchId ≠ qh.batchId := by
          intro hbideq
          exact hkeyqh e he (by rw [hj, hbideq])
        refine ⟨b, ?_, hpend⟩
        rw [hj] at hfb ⊢
        rw [hupd e.batchId, hfb]
        have hb2 : ¬ b.batchId = qh.batchId := by
          rw [lookupBatch_batchId hfb]
          exact hbidne
        simp [hb2]
      · refine ⟨b, ?_, hpend⟩
        rw [lookupBatch_update_other _ _ _ _ _ hj]
        exact hfb
    · intro q hq
      rcases List.mem_cons.mp hq with rfl | hmem
      · refine ⟨{ bd with status := .triggered }, ?_, rfl⟩
        show lookupBatch _ qh.ingestionId qh.batchId = _
        rw [hupd qh.batchId, hbd]
        simp [hbdid]
      · obtain ⟨b, hfb, htr⟩ := hinv.inflight_triggered q hmem
        by_cases hj : q.1 = qh.ingestionId
        · have hbidne : q.2 ≠ qh.batchId := by
            intro hbideq
            rw [hj, hbideq] at hfb
            have hbb : b = bd := Option.some.inj (hfb.symm.trans hbd)
            rw [hbb, hst] at htr
            exact Status.noConfusion htr
          refine ⟨b, ?_, htr⟩
          rw [hj] at hfb ⊢
          rw [hupd q.2, hfb]
          have hb2 : ¬ b.batchId = qh.batchId := by
            rw [lookupBatch_batchId hfb]
            exact hbidne
          simp [hb2]
        · refine ⟨b, ?_, htr⟩
          rw [lookupBatch_update_other _ _ _ _ _ hj]
          exact hfb
    · refine List.nodup_cons.mpr ⟨?_, hinv.inflight_nodup⟩
      intro hmem
      obtain ⟨b, hfb, htr⟩ := hinv.inflight_triggered _ hmem
      have hbb : b = bd := Option.some.inj (hfb.symm.trans hbd)
      rw [hbb, hst] at htr
      exact Status.noConfusion htr
    · intro kv hkv
      have hkv2 : kv ∈ updateIngestion s.ingestions qh.ingestionId (fun ing2 =>
          { ing2 with
            status := if ing2.status = Status.yet_to_start then Status.triggered else ing2.status,
            batches := setBatchStatus ing2.batches qh.batchId .triggered }) := hkv
      obtain ⟨kv0, hkv0, hfst, -⟩ := mem_updateIngestion hkv2
      have hlt := hinv.key_lt kv0 hkv0
      show kv.1 < s.nextId
      omega
    · intro kv hkv b hb
      have hkv2 : kv ∈ updateIngestion s.ingestions qh.ingestionId (fun ing2 =>
          { ing2 with
            status := if ing2.status = Status.yet_to_start then Status.triggered else ing2.status,
            batches := setBatchStatus ing2.batches qh.batchId .triggered }) := hkv
      obtain ⟨kv0, hkv0, -, hsnd⟩ := mem_updateIngestion hkv2
      show b.batchId < s.nextId
      rcases hsnd with heq | heq
      · exact hinv.batch_lt kv0 hkv0 b (heq ▸ hb)
      · have hb2 : b ∈ setBatchStatus kv0.2.batches qh.batchId .triggered := by
          have hb3 := heq ▸ hb
          exact hb3
        obtain ⟨b0, hb0, hbid0⟩ := mem_setBatchStatus hb2
        have hlt := hinv.batch_lt kv0 hkv0 b0 hb0
        omega

lemma completeBatch_ingestions_mem {s : ServiceState} {iid bid : Nat} {kv : Nat × Ingestion}
    (h : kv ∈ (completeBatch s iid bid).ingestions) :
    ∃ kv0 ∈ s.ingestions, kv.1 = kv0.1 ∧
      ∀ b ∈ kv.2.batches, ∃ b0 ∈ kv0.2.batches, b.batchId = b0.batchId := by
  unfold completeBatch at h
  dsimp only at h
  have hm1 : ∀ kv2 : Nat × Ingestion, kv2 ∈ updateIngestion s.ingestions iid (fun ing =>
      { ing with batches := setBatchStatus ing.batches bid .completed }) →
      ∃ kv0 ∈ s.ingestions, kv2.1 = kv0.1 ∧
        ∀ b ∈ kv2.2.batches, ∃ b0 ∈ kv0.2.batches, b.batchId = b0.batchId := by
    intro kv2 h2
    obtain ⟨kv0, hkv0, hfst, hsnd⟩ := mem_updateIngestion h2
    refine ⟨kv0, hkv0, hfst, ?_⟩
    intro b hb
    rcases hsnd with heq | heq
    · exact ⟨b, heq ▸ hb, rfl⟩
    · have hb2 : b ∈ setBatchStatus kv0.2.batches bid .completed := by
        have hb3 := heq ▸ hb
        exact hb3
      exact mem_setBatchStatus hb2
  split at h
  · split at h
    · obtain ⟨kv1, hkv1, hfst1, hsnd1⟩ := mem_updateIngestion h
      obtain ⟨kv0, hkv0, hfst0, hbs⟩ := hm1 kv1 hkv1
      refine ⟨kv0, hkv0, hfst1.trans hfst0, ?_⟩
      intro b hb
      rcases hsnd1 with heq | heq
      · exact hbs b (heq ▸ hb)
      · have hb2 : b ∈ kv1.2.batches := by
          have hb3 := heq ▸ hb
          exact hb3
        exact hbs b hb2
    · exact hm1 kv h
  · exact hm1 kv h

lemma inv_complete (s : ServiceState) (iid bid : Nat) (hinv : Inv s)
    (hmem : (iid, bid) ∈ s.inFlight) : Inv (completeBatch s iid bid) := by
  obtain ⟨bd, hbd, htrig⟩ := hinv.inflight_triggered _ hmem
  have hkeep : ∀ j bid2 b, (j, bid2) ≠ (iid, bid) → lookupBatch s.ingestions j bid2 = some b →
      lookupBatch (completeBatch s iid bid).ingestions j bid2 = some b := by
    intro j bid2 b hne hfb
    unfold completeBatch
    dsimp only
    have h1 : lookupBatch (updateIngestion s.ingestions iid fun ing =>
        { ing with batches := setBatchStatus ing.batches bid .completed }) j bid2 = some b := by
      by_cases hj : j = iid
      · subst hj
        have hbne : bid2 ≠ bid := by
          intro hb2
          exact hne (by rw [hb2])
        rw [lookupBatch_update_setStatus _ _ bid .completed _ (fun ing2 => rfl) bid2, hfb]
        have hb2 : ¬ b.batchId = bid := by
          rw [lookupBatch_batchId hfb]
          exact hbne
        simp [hb2]
      · rw [lookupBatch_update_other _ _ _ _ _ hj]
        exact hfb
    split
    · split
      · rw [lookupBatch_update_sameBatches _ iid
          (fun ing2 => { ing2 with status := Status.completed }) (fun ing => rfl) j bid2]
        exact h1
      · exact h1
    · exact h1
  refine ⟨?_, hinv.queue_nodup, ?_, List.Nodup.erase _ hinv.inflight_nodup, ?_, ?_⟩
  · intro e he
    obtain ⟨b, hfb, hpend⟩ := hinv.queue_pending e he
    refine ⟨b, ?_, hpend⟩
    refine hkeep _ _ _ ?_ hfb
    intro heq
    have h1 : e.ingestionId = iid := congrArg Prod.fst heq
    have h2 : e.batchId = bid := congrArg Prod.snd heq
    rw [h1, h2] at hfb
    have hbb : b = bd := Option.some.inj (hfb.symm.trans hbd)
    rw [hbb, htrig] at hpend
    exact Status.noConfusion hpend
  · intro q hq
    have hq2 : q ∈ s.inFlight.erase (iid, bid) := hq
    obtain ⟨hne, hq3⟩ := (List.Nodup.mem_erase_iff hinv.inflight_nodup).mp hq2
    obtain ⟨b, hfb, htr⟩ := hinv.inflight_triggered q hq3
    refine ⟨b, hkeep _ _ _ ?_ hfb, htr⟩
    intro heq
    exact hne heq
  · intro kv hkv
    obtain ⟨kv0, hkv0, hfst, -⟩ := completeBatch_ingestions_mem hkv
    have hlt := hinv.key_lt kv0 hkv0
    show kv.1 < s.nextId
    omega
  · intro kv hkv b hb
    obtain ⟨kv0, hkv0, -, hbs⟩ := completeBatch_ingestions_mem hkv
    obtain ⟨b0, hb0, hbid0⟩ := hbs b hb
    have hlt := hinv.batch_lt kv0 hkv0 b0 hb0
    show b.batchId < s.nextId
    omega

lemma inv_reachable {s : ServiceState} (h : Reachable s) : Inv s := by
  induction h with
  | init => exact inv_initial
  | create s ids p now _ ih => exact inv_create s ids p now ih
  | dispatch s _ ih => exact inv_dispatch s ih
  | complete s iid bid _ hmem ih => exact inv_complete s iid bid ih hmem

/-- C8: in every reachable state, queue entries are unique per batch
(`(ingestionId, batchId)` keys are pairwise distinct), and every queue entry
points at an existing batch that is still `yet_to_start` — so an entry
exists only while its batch is pending and is gone from the instant the
batch is flipped to `triggered` (dispatch), not merely when it completes. -/
theorem claim_queue_entry_lifecycle (s : ServiceState) (h : Reachable s) :
    (s.batchQueue.map fun e => (e.ingestionId, e.batchId)).Nodup ∧
    ∀ e ∈ s.batchQueue, ∃ b,
      lookupBatch s.ingestions e.ingestionId e.batchId = some b ∧
        b.status = .yet_to_start := by
  have hinv := inv_reachable h
  exact ⟨hinv.queue_nodup, hinv.queue_pending⟩

lemma dispatchStep_pop (s : ServiceState) (h : s.batchQueue ≠ []) :
    ((dispatchStep s).1).batchQueue.length + 1 = s.batchQueue.length := by
  rcases dispatchStep_cases s with ⟨-, -, hsort⟩ | ⟨qh, rest, hsort, hcase⟩
  · exfalso
    have hl := sortQueue_length s.batchQueue
    rw [hsort] at hl
    exact h (List.length_eq_zero.mp hl.symm)
  · have hlen : rest.length + 1 = s.batchQueue.length := by
      have hl := sortQueue_length s.batchQueue
      rw [hsort] at hl
      simpa using hl
    rcases hcase with ⟨hs, -⟩ | ⟨-, bd, -, -, hs⟩ <;> rw [hs] <;> exact hlen

/-- One event of a run of the dispatch loop: a batch was dispatched
(recording how many entries remained in the queue right after the pop), a
stale entry was discarded without a rate-limit wait, or the loop suspended
in the `setTimeout` rate-limit sleep. -/
inductive LoopEvent
  | dispatched (ingestionId batchId remaining : Nat)
  | skippedEntry
  | slept (ms : Nat)
deriving DecidableEq

/-- A full run of the `while (this.batchQueue.length > 0)` loop of
`processQueue` (with no interleaved external enqueue), returning the final
state and the chronological event trace.  After a dispatch the loop sleeps
`RATE_LIMIT_MS` exactly when the queue is still non-empty after the pop;
the sleep is the only suspension the loop body contains. -/
def runLoop (s : ServiceState) : ServiceState × List LoopEvent :=
  if h : s.batchQueue = [] then (s, [])
  else
    have hlt : ((dispatchStep s).1).batchQueue.length < s.batchQueue.length := by
      have hpop := dispatchStep_pop s h
      omega
    match (dispatchStep s).2 with
    | none =>
      ((runLoop (dispatchStep s).1).1, .skippedEntry :: (runLoop (dispatchStep s).1).2)
    | some qi =>
      ((runLoop (dispatchStep s).1).1,
        .dispatched qi.ingestionId qi.batchId ((dispatchStep s).1).batchQueue.length ::
          ((if ((dispatchStep s).1).batchQueue.length = 0 then []
            else [.slept RATE_LIMIT_MS]) ++ (runLoop (dispatchStep s).1).2))
termination_by s.batchQueue.length
decreasing_by exact hlt

/-- Checks the rate-limit discipline of a trace: every dispatch that left
the queue non-empty is immediately followed by a `RATE_LIMIT_MS` sleep, and
a dispatch that drained the queue ends the run — hence no two dispatches
occur without a full rate-limit sleep between them. -/
def wellSpaced : List LoopEvent → Bool
  | [] => true
  | .skippedEntry :: rest => wellSpaced rest
  | .slept _ :: rest => wellSpaced rest
  | .dispatched _ _ 0 :: rest => rest.isEmpty
  | .dispatched _ _ (_ + 1) :: .slept ms :: rest => ms == RATE_LIMIT_MS && wellSpaced rest
  | .dispatched _ _ (_ + 1) :: _ => false

/-- C9: `RATE_LIMIT_MS` is 5000ms, and every run of the dispatch loop is
well spaced: after each dispatch the loop suspends for exactly
`RATE_LIMIT_MS` iff the queue is still non-empty after the pop (a dispatch
that empties the queue ends the run with no sleep), so consecutive
dispatches of a run are always separated by a rate-limit sleep — measured
dispatch-to-dispatch, with the sleep as the loop's only blocking event. -/
theorem claim_rate_limit_spacing :
    RATE_LIMIT_MS = 5000 ∧ ∀ s, wellSpaced (runLoop s).2 = true := by
  refine ⟨rfl, ?_⟩
  have main : ∀ n s, s.batchQueue.length ≤ n → wellSpaced (runLoop s).2 = true := by
    intro n
    induction n with
    | zero =>
      intro s hs
      have hnil : s.batchQueue = [] := List.length_eq_zero.mp (Nat.le_zero.mp hs)
      unfold runLoop
      rw [dif_pos hnil]
      rfl
    | succ n ih =>
      intro s hs
      by_cases hnil : s.batchQueue = []
      · unfold runLoop
        rw [dif_pos hnil]
        rfl
      · have hpop := dispatchStep_pop s hnil
        have hlen : ((dispatchStep s).1).batchQueue.length ≤ n := by omega
        unfold runLoop
        rw [dif_neg hnil]
        rcases hd : (dispatchStep s).2 with _ | qi
        · show wellSpaced (LoopEvent.skippedEntry :: (runLoop (dispatchStep s).1).2) = true
          rw [wellSpaced]
          exact ih _ hlen
        · by_cases hz : ((dispatchStep s).1).batchQueue.length = 0
          · have hend : (runLoop (dispatchStep s).1).2 = [] := by
              unfold runLoop
              rw [dif_pos (List.length_eq_zero.mp hz)]
            show wellSpaced (LoopEvent.dispatched qi.ingestionId qi.batchId
                ((dispatchStep s).1).batchQueue.length ::
              ((if ((dispatchStep s).1).batchQueue.length = 0 then []
                else [LoopEvent.slept RATE_LIMIT_MS]) ++ (runLoop (dispatchStep s).1).2)) = true
            rw [hz, if_pos rfl, hend]
            rfl
          · obtain ⟨m, hm⟩ : ∃ m, ((dispatchStep s).1).batchQueue.length = m + 1 :=
              ⟨((dispatchStep s).1).batchQueue.length - 1, by omega⟩
            show wellSpaced (LoopEvent.dispatched qi.ingestionId qi.batchId
                ((dispatchStep s).1).batchQueue.length ::
              ((if ((dispatchStep s).1).batchQueue.length = 0 then []
                else [LoopEvent.slept RATE_LIMIT_MS]) ++ (runLoop (dispatchStep s).1).2)) = true
            rw [hm, if_neg (by omega)]
            show wellSpaced (LoopEvent.dispatched qi.ingestionId qi.batchId (m + 1) ::
              LoopEvent.slept RATE_LIMIT_MS :: (runLoop (dispatchStep s).1).2) = true
            rw [wellSpaced]
            rw [ih _ hlen]
            simp
  intro s
  exact main s.batchQueue.length s (Nat.le_refl _)

/-- A sample state: one LOW-priority ingestion of `[1]`, admitted at t=10
(ingestion id 0, batch id 1). -/
def sampleLow : ServiceState := (createIngestion initialState [1] .LOW 10).1

/-- A sample state: the LOW ingestion of `sampleLow` followed by a
HIGH-priority ingestion of `[2]` admitted later, at t=20 (ingestion id 2,
batch id 3). -/
def sampleTwo : ServiceState := (createIngestion sampleLow [2] .HIGH 20).1

/-- The ingestion record registered in `sampleLow`. -/
def sampleLowIngestion : Ingestion :=
  { id := 0, priority := .LOW,
    batches := [{ batchId := 1, ids := [1], status := .yet_to_start }],
    createdAt := 10, status := .yet_to_start }

theorem claim_batch_partition_witness :
    ∃ ing, lookupIngestion
        (createIngestion initialState [1, 2, 3, 4, 5, 6, 7, 8, 9, 10] Priority.HIGH 0).1.ingestions
        (createIngestion initialState [1, 2, 3, 4, 5, 6, 7, 8, 9, 10] Priority.HIGH 0).2
        = some ing ∧
      (ing.batches.map fun b => b.ids).length = (([1, 2, 3, 4, 5, 6, 7, 8, 9, 10] : List Int).length + 2) / 3 ∧
      (∀ l ∈ (ing.batches.map fun b => b.ids).dropLast, l.length = 3) ∧
      ((ing.batches.map fun b => b.ids).getLast?).map (fun l => l.length)
        = some (if ([1, 2, 3, 4, 5, 6, 7, 8, 9, 10] : List Int).length % 3 = 0 then 3
            else ([1, 2, 3, 4, 5, 6, 7, 8, 9, 10] : List Int).length % 3) ∧
      (ing.batches.map fun b => b.ids).flatten = [1, 2, 3, 4, 5, 6, 7, 8, 9, 10] :=
  claim_batch_partition initialState [1, 2, 3, 4, 5, 6, 7, 8, 9, 10] Priority.HIGH 0
    (by decide)

theorem claim_status_is_spec_aggregation_witness :
    ∃ r, getIngestionStatus sampleLow 0 = some r ∧
      r.status = specAggregatedStatus sampleLowIngestion.batches :=
  claim_status_is_spec_aggregation sampleLow 0 sampleLowIngestion (by decide) (by decide)

/-- C2, counterexample to the claim as stated over every registered
ingestion: the ingestion the core registers from an empty id list has an
empty batch list, and the status `getIngestionStatus` returns for it
(`completed`, by the vacuously true `every`) differs from the spec's
aggregation function, which requires a non-empty batch list for `completed`
and so yields `yet_to_start` here. -/
theorem claim_status_spec_counterexample :
    ∃ ing r,
      lookupIngestion (createIngestion initialState [] Priority.HIGH 0).1.ingestions
        (createIngestion initialState [] Priority.HIGH 0).2 = some ing ∧
      getIngestionStatus (createIngestion initialState [] Priority.HIGH 0).1
        (createIngestion initialState [] Priority.HIGH 0).2 = some r ∧
      r.status ≠ specAggregatedStatus ing.batches := by
  refine ⟨{ id := 0, priority := .HIGH, batches := [], createdAt := 0,
            status := .yet_to_start },
    { ingestion_id := 0, status := .completed, batches := [] }, ?_, ?_, ?_⟩
  · decide
  · decide
  · decide

/-- The queue entry of the HIGH ingestion in `sampleTwo`. -/
def sampleHighEntry : QueueEntry :=
  { ingestionId := 2, batchId := 3, priority := .HIGH, createdAt := 20 }

theorem claim_dispatch_priority_witness :
    sampleHighEntry ∈ sampleTwo.batchQueue ∧
      ∀ e ∈ sampleTwo.batchQueue,
        priorityOrder sampleHighEntry.priority ≤ priorityOrder e.priority :=
  claim_dispatch_priority sampleTwo sampleHighEntry (by decide)

theorem claim_create_atomic_witness :
    ∃ ing,
      lookupIngestion (createIngestion initialState [5, 6, 7, 8] Priority.MEDIUM 3).1.ingestions
          (createIngestion initialState [5, 6, 7, 8] Priority.MEDIUM 3).2 = some ing ∧
      (∀ b ∈ ing.batches, b.status = .yet_to_start) ∧
      ing.createdAt = 3 ∧
      (createIngestion initialState [5, 6, 7, 8] Priority.MEDIUM 3).1.batchQueue.filter
          (fun e => e.ingestionId == initialState.nextId) =
        ing.batches.map (fun b =>
          { ingestionId := initialState.nextId, batchId := b.batchId,
            priority := Priority.MEDIUM, createdAt := 3 }) :=
  claim_create_atomic initialState [5, 6, 7, 8] Priority.MEDIUM 3 (by decide)

theorem claim_validation_witness :
    (postIngest initialState
        { ids := some [{ val := 0, isInteger := true }], priority := some "HIGH" } 7).1
      = initialState ∧
    (postIngest initialState
        { ids := some [{ val := 0, isInteger := true }], priority := some "HIGH" } 7).2.isBadRequest
      = true :=
  ⟨(claim_validation initialState
      { ids := some [{ val := 0, isInteger := true }], priority := some "HIGH" } 7).2
    (by decide), by decide⟩

theorem claim_status_query_witness :
    getIngestionStatus sampleLow 0 = some
      { ingestion_id := 0, status := derivedStatus sampleLowIngestion.batches,
        batches := sampleLowIngestion.batches.map fun b =>
          { batch_id := b.batchId, ids := b.ids, status := b.status } } ∧
    statusHandler sampleLow 99 = .notFound :=
  ⟨(claim_status_query sampleLow 0).2.1 sampleLowIngestion (by decide),
    ((claim_status_query sampleLow 99).2.2).mpr (by decide)⟩

theorem claim_batch_monotonic_witness :
    ∃ b2, lookupBatch (dispatchStep sampleTwo).1.ingestions 2 3 = some b2 ∧
      statusRank ({ batchId := 3, ids := [2], status := .yet_to_start } : Batch).status
        ≤ statusRank b2.status :=
  (claim_batch_monotonic sampleTwo 2 3
    { batchId := 3, ids := [2], status := .yet_to_start } (by decide)).2.1

theorem claim_queue_entry_lifecycle_witness :
    (sampleLow.batchQueue.map fun e => (e.ingestionId, e.batchId)).Nodup ∧
    ∀ e ∈ sampleLow.batchQueue, ∃ b,
      lookupBatch sampleLow.ingestions e.ingestionId e.batchId = some b ∧
        b.status = .yet_to_start :=
  claim_queue_entry_lifecycle sampleLow
    (Reachable.create initialState [1] .LOW 10 Reachable.init)

end DataIngestion
